import Mathlib

/-!
Verification development for the `ffmpeg-video-decoder` repository.

The Rust sources under `src/` are shallowly embedded below:

* `src/src/lib.rs` : `Dimensions`
* `src/src/source.rs` : `VideoSource` and its four `From` conversions
* `src/src/error.rs` : `DecodeError`
* `src/src/c.rs` : `Stream` and `read_stream`
* `src/src/decoder.rs` : `Frame`, `VideoDecoder`, `next_frame`, `skip`, `loop_ctx`

The external ffmpeg engine (demuxing, codec, sws conversion) is out of scope
of the repository; its interaction surface is embedded as data:

* `av_read_frame` reading the next packet becomes popping the head of a
  `List Packet`; a packet carries its `stream_index`, whether
  `avcodec_send_packet` accepts it (`send_ok`), and the list of raw frames the
  codec emits for it (`frames`).
* the codec context's internal queue of decoded-but-not-yet-received frames is
  the `pending` list; `avcodec_send_packet` appends the packet's frames to it
  and each `avcodec_receive_frame` call pops one entry.
* `avio_seek` together with `avformat_seek_file` back to the start becomes
  restoring the packet list to the full stream (`all_packets`).

Machine integers: `usize` values (`index`, lengths) are embedded as `Nat`;
`saturating_sub` is `Nat` subtraction.  `isize::MAX` on a 64-bit target is
`2 ^ 63 - 1`.  A Rust panic is embedded as `Option.none`.
-/

namespace FfmpegVideoDecoder

/-- `isize::MAX` on a 64-bit target (`src/src/decoder.rs` casts
`isize::MAX as usize` when splitting a large backward-skip offset). -/
def isizeMaxN : Nat := 2 ^ 63 - 1

/-- `Dimensions` from `src/src/lib.rs`: `{width: u32, height: u32}`. -/
structure Dimensions where
  width : Nat
  height : Nat
deriving DecidableEq

/-- `Cow<'_, T>` from the Rust standard library: either borrowed or owned
data.  Only the payload matters for the conversion claims. -/
inductive Cow (α : Type) where
  | Borrowed (value : α)
  | Owned (value : α)
deriving DecidableEq

/-- `VideoSource` from `src/src/source.rs`: raw bytes or a filesystem path.
A path is embedded as a `String`. -/
inductive VideoSource where
  | Raw (data : Cow (List UInt8))
  | Filesystem (path : Cow String)
deriving DecidableEq

/-- `impl From<&[u8]> for VideoSource` (`src/src/source.rs`). -/
def VideoSource.fromByteSlice (data : List UInt8) : VideoSource :=
  .Raw (.Borrowed data)

/-- `impl From<Vec<u8>> for VideoSource` (`src/src/source.rs`). -/
def VideoSource.fromByteVec (data : List UInt8) : VideoSource :=
  .Raw (.Owned data)

/-- `impl From<&Path> for VideoSource` (`src/src/source.rs`). -/
def VideoSource.fromPathRef (path : String) : VideoSource :=
  .Filesystem (.Borrowed path)

/-- `impl From<PathBuf> for VideoSource` (`src/src/source.rs`). -/
def VideoSource.fromPathBuf (path : String) : VideoSource :=
  .Filesystem (.Owned path)

/-- The exhaustive list of input types for which `src/src/source.rs` declares
a `From` impl (there are exactly four; in particular there is none for
`&str` or `String`). -/
inductive SourceInput where
  | bytesRef (data : List UInt8)
  | bytesVec (data : List UInt8)
  | pathRef (path : String)
  | pathBuf (path : String)
deriving DecidableEq

/-- Dispatch of `Into<VideoSource>` over the four impls of
`src/src/source.rs`. -/
def intoVideoSource : SourceInput → VideoSource
  | .bytesRef data => VideoSource.fromByteSlice data
  | .bytesVec data => VideoSource.fromByteVec data
  | .pathRef path => VideoSource.fromPathRef path
  | .pathBuf path => VideoSource.fromPathBuf path

/-- `DecodeError` from `src/src/error.rs`.

The last two variants are constructed by `src/src/decoder.rs`
(`DecodeError::UnableToSendPacketToDecoder` at the `avcodec_send_packet`
failure in `next_frame`, `DecodeError::InvalidSource` at the path-encoding
failure in `new`) but their declarations are absent from the enum in
`src/src/error.rs` as shipped.  Modelled from the spec: section 7 lists
`UnableToSendPacketToDecoder` and `InvalidSource` among the error kinds of
the (`#[non_exhaustive]`) error type. -/
inductive DecodeError where
  | UnableToOpenInput
  | UnableToReadStreamInfo
  | UnableToFindVideoStream
  | UnsupportedCodec
  | UnableToReadFrameBuffer
  | UnableToSendPacketToDecoder
  | InvalidSource
deriving DecidableEq

/-- `Frame` from `src/src/decoder.rs`: 1-based index, raw RGB data, and the
dimensions it was decoded at. -/
structure Frame where
  index : Nat
  data : List UInt8
  dimensions : Dimensions
deriving DecidableEq

/-- A compressed packet as delivered by `av_read_frame`, together with the
observable behaviour of the external codec on it: the stream it belongs to,
whether `avcodec_send_packet` accepts it, and the raw frames the codec emits
for it (zero, one, or several). -/
structure Packet where
  stream_index : Int
  send_ok : Bool
  frames : List (List UInt8)
deriving DecidableEq

/-- `VideoDecoder` from `src/src/decoder.rs`.  The native ffmpeg handles are
replaced by their observable content: `packets` is the not-yet-read tail of
the demuxed stream (`av_read_frame` pops its head), `all_packets` the full
stream (restored by the seek in `loop_ctx`), and `pending` the codec
context's queue of decoded frames not yet returned by
`avcodec_receive_frame`.  The `f32` framerate is not modelled (floating
point; no claim mentions it). -/
structure VideoDecoder where
  dimensions : Dimensions
  buffer : List Frame
  should_loop : Bool
  index : Nat
  stream_id : Int
  texture_data : List UInt8
  packets : List Packet
  all_packets : List Packet
  pending : List (List UInt8)
deriving DecidableEq

/-- Modelled from the spec: `av_image_get_buffer_size(AV_PIX_FMT_RGB24, w, h,
BUFFER_ALIGNMENT)` is ffmpeg-internal; spec section 4.3 step 7 says the
backing byte buffer is "sized exactly for width x height x 3 (RGB, no
padding)". -/
def av_image_get_buffer_size_rgb24 (width height : Nat) : Nat :=
  width * height * 3

/-- Modelled from the spec: `sws_scale` (the convert/scale context) is
ffmpeg-internal; per spec sections 1 and 4.3 step 8 it converts the raw
frame into the fixed-size destination buffer (RGB24, identical dimensions),
overwriting the buffer in place.  The pixel arithmetic is out of scope, so
the converted content is stood in for by the raw payload; what the embedding
keeps is that the destination buffer's length never changes. -/
def sws_scale_write (dst raw : List UInt8) : List UInt8 :=
  (raw ++ dst).take dst.length

/-- The success result of `VideoDecoder::new` (`src/src/decoder.rs`): empty
frame buffer, `index = 1`, dimensions from the codec context, the
texture buffer allocated as `vec![0; buffer_size]`, and the demuxed packet
stream positioned at the start. -/
def VideoDecoder.new (width height : Nat) (sid : Int) (ps : List Packet)
    (should_loop : Bool) : VideoDecoder where
  dimensions := ⟨width, height⟩
  buffer := []
  should_loop := should_loop
  index := 1
  stream_id := sid
  texture_data := List.replicate (av_image_get_buffer_size_rgb24 width height) 0
  packets := ps
  all_packets := ps
  pending := []

/-- `VideoDecoder::loop_ctx` (`src/src/decoder.rs` lines 462-479): seek the
I/O cursor back to byte 0 and `avformat_seek_file` to the start of the
selected stream, then reset `index` to 1.  The seek restores the demux read
position, i.e. the remaining packet list becomes the full stream again.
Note that neither the frame buffer nor the codec's pending frames are
cleared (the code calls no `avcodec_flush_buffers`). -/
def VideoDecoder.loop_ctx (d : VideoDecoder) : VideoDecoder :=
  { d with packets := d.all_packets, index := 1 }

/-- One run of the `while avcodec_receive_frame(..) >= 0` drain loop in
`next_frame`: every pending decoded frame is converted with `sws_scale`
into the texture buffer, cloned into a `Frame` tagged with the current
`index`, pushed onto the frame buffer, and `index` is incremented. -/
def recv_all_go : List (List UInt8) → VideoDecoder → VideoDecoder
  | [], d => d
  | raw :: rest, d =>
    let tex := sws_scale_write d.texture_data raw
    recv_all_go rest
      { d with
        texture_data := tex
        buffer := d.buffer ++ [⟨d.index, tex, d.dimensions⟩]
        index := d.index + 1 }

/-- Drain the codec's entire pending-frame queue into the frame buffer. -/
def recv_all (d : VideoDecoder) : VideoDecoder :=
  recv_all_go d.pending { d with pending := [] }

/-- Fuel-indexed embedding of `VideoDecoder::next_frame`
(`src/src/decoder.rs` lines 295-345).  The Rust function is recursive
("Recurse (tail-call semantics)"); the fuel bounds the recursion depth and
`none` marks a run that would recurse beyond it (a looping decoder over a
stream with no producible frame really does loop forever).  The result on
enough fuel is `some`: `Except.error` for the `Err(..)` return,
`Option Frame` for `Ok(None)` / `Ok(Some(frame))`, paired with the decoder
state after the call. -/
def next_frame_fuel :
    Nat → VideoDecoder → Option (Except DecodeError (Option Frame × VideoDecoder))
  | 0, _ => none
  | fuel + 1, d =>
    match d.buffer with
    | f :: rest => some (.ok (some f, { d with buffer := rest }))
    | [] =>
      match d.packets with
      | [] =>
        if d.should_loop then next_frame_fuel fuel d.loop_ctx
        else some (.ok (none, d))
      | p :: rest =>
        if p.stream_index = d.stream_id then
          if p.send_ok then
            next_frame_fuel fuel
              (recv_all { d with packets := rest, pending := d.pending ++ p.frames })
          else some (.error .UnableToSendPacketToDecoder)
        else next_frame_fuel fuel { d with packets := rest }

/-- `VideoDecoder::next_frame` with enough fuel for every terminating run:
a non-looping call recurses at most once per remaining packet, and a
looping call additionally replays the full stream once after a reset (if
that replay produces nothing, the real code loops forever and the embedding
yields `none`). -/
def next_frame (d : VideoDecoder) :
    Option (Except DecodeError (Option Frame × VideoDecoder)) :=
  next_frame_fuel (d.packets.length + d.all_packets.length + 2) d

/-- `VecDeque::drain(..=limit)` from the Rust standard library: removes the
elements at positions `0` through `limit` inclusive and panics (`none`)
when the end of the range, `limit + 1`, exceeds the deque's length. -/
def drainToInclusive (limit : Nat) (q : List Frame) : Option (List Frame) :=
  if limit + 1 ≤ q.length then some (q.drop (limit + 1)) else none

/-- Result of the packet-reading loop of `VideoDecoder::skip` for `n > 0`. -/
structure SkipGoResult where
  packets : List Packet
  index : Nat
  pending : List (List UInt8)
deriving DecidableEq

/-- The `while frames > 0` loop of `VideoDecoder::skip`
(`src/src/decoder.rs` lines 368-400): read the next packet (return on end of
input), ignore it if it is not in the selected stream or if
`avcodec_send_packet` rejects it (`continue`), and otherwise receive decoded
frames one at a time, decrementing the remaining count and incrementing
`index` per frame, breaking out as soon as the count reaches zero (frames
still pending inside the codec stay pending).  No conversion and no
buffering happens here. -/
def skip_go (sid : Int) : Nat → List Packet → Nat → List (List UInt8) → SkipGoResult
  | 0, ps, i, pd => ⟨ps, i, pd⟩
  | _ + 1, [], i, pd => ⟨[], i, pd⟩
  | frames + 1, p :: rest, i, pd =>
    if p.stream_index = sid then
      if p.send_ok then
        let pd2 := pd ++ p.frames
        let k := min pd2.length (frames + 1)
        skip_go sid (frames + 1 - k) rest (i + k) (pd2.drop k)
      else
        skip_go sid (frames + 1) rest i pd
    else
      skip_go sid (frames + 1) rest i pd

/-- The `Ordering::Greater` arm of `VideoDecoder::skip`
(`src/src/decoder.rs` lines 354-401): when the frame buffer is non-empty and
its length is at most `frames`, the code computes
`limit = buffer.len()` (the `match` inside the branch always takes its
`true` arm) and calls `self.buffer.drain(..=limit)` — which panics, since
the inclusive end equals the deque's length; afterwards (were it reached)
`frames -= limit` and the packet-discard loop runs. -/
def skip_fwd (frames : Nat) (d : VideoDecoder) : Option VideoDecoder :=
  if d.buffer ≠ [] ∧ d.buffer.length ≤ frames then
    let limit := if d.buffer.length ≤ frames then d.buffer.length else frames
    match drainToInclusive limit d.buffer with
    | none => none
    | some buf =>
      let r := skip_go d.stream_id (frames - limit) d.packets d.index d.pending
      some { d with buffer := buf, packets := r.packets, index := r.index,
                    pending := r.pending }
  else
    let r := skip_go d.stream_id frames d.packets d.index d.pending
    some { d with packets := r.packets, index := r.index, pending := r.pending }

/-- `VideoDecoder::skip` (`src/src/decoder.rs` lines 350-425).  `n.cmp(&0)`:
`Greater` runs the forward discard (`skip_fwd`), `Equal` is a no-op, and
`Less` computes
`offset = index.saturating_sub(2).saturating_sub(n.unsigned_abs())`,
resets via `loop_ctx`, and forward-skips by `offset` — split into
`skip(isize::MAX)` followed by `skip(offset - isize::MAX)` when `offset`
does not fit in `isize`.  The recursive `self.skip(m)` calls have `m ≥ 0`
and so land in the `Greater`/`Equal` arms, which `skip_fwd` implements
(`skip_fwd 0` leaves the state unchanged, as does the `Equal` arm). -/
def skip (n : Int) (d : VideoDecoder) : Option VideoDecoder :=
  if 0 < n then
    skip_fwd n.toNat d
  else if n < 0 then
    if isizeMaxN < d.index - 2 - n.natAbs then
      (skip_fwd isizeMaxN d.loop_ctx).bind
        fun d3 => skip_fwd (d.index - 2 - n.natAbs - isizeMaxN) d3
    else
      skip_fwd (d.index - 2 - n.natAbs) d.loop_ctx
  else
    some d

/-- `Stream` from `src/src/c.rs`: the read cursor the byte-stream adapter
hands to ffmpeg.  The `data` pointer's target is embedded as the byte list
it points at. -/
structure Stream where
  length : Nat
  offset : Nat
  data : List UInt8
deriving DecidableEq

/-- Result of one `read_stream` callback invocation: the bytes copied into
the caller's buffer, the updated cursor, and the `i32` return value. -/
structure ReadResult where
  written : List UInt8
  stream : Stream
  ret : Nat
deriving DecidableEq

/-- `read_stream` from `src/src/c.rs`: clamp the requested size to the bytes
remaining before `length`, copy exactly that many bytes from
`data + offset` into the caller's buffer, advance the cursor, and return
the copied count. -/
def read_stream (s : Stream) (size : Nat) : ReadResult :=
  let n := min size (s.length - s.offset)
  ⟨(s.data.drop s.offset).take n, { s with offset := s.offset + n }, n⟩

/-- Total number of frames carried by the packets of stream `sid` — the
`total_frame_count` of the source as seen by the selected video stream. -/
def totalFrames (sid : Int) : List Packet → Nat
  | [] => 0
  | p :: rest =>
    (if p.stream_index = sid then p.frames.length else 0) + totalFrames sid rest

/-- The index the next produced frame will carry: buffered frames go out
first and were tagged with earlier values of `index`. -/
def nextIdx (d : VideoDecoder) : Nat := d.index - d.buffer.length

/-- Observation helper: the index of the frame the next `next_frame` call
returns, when it returns one. -/
def nextProducedIndex (d : VideoDecoder) : Option Nat :=
  match next_frame d with
  | some (.ok (some f, _)) => some f.index
  | _ => none

/-- Observation helper: the decoder state after a `next_frame` call that
returned a frame. -/
def nextFrameState (d : VideoDecoder) : Option VideoDecoder :=
  match next_frame d with
  | some (.ok (some _, d2)) => some d2
  | _ => none

/-- Well-formedness of the frame buffer relative to `index`: the buffered
frames carry consecutive indices ending right before `index` (they were
tagged with successive values of `index` as they were pushed). -/
def wf (d : VideoDecoder) : Prop :=
  d.buffer.map Frame.index =
    List.range' (d.index - d.buffer.length) d.buffer.length ∧
  d.buffer.length < d.index

instance (d : VideoDecoder) : Decidable (wf d) := by
  unfold wf; infer_instance

/-- Frame-layout invariant: the texture buffer has exactly
`width * height * 3` bytes and every buffered frame carries the decoder's
dimensions and a data buffer of exactly that many bytes. -/
def frame_inv (d : VideoDecoder) : Prop :=
  d.texture_data.length = d.dimensions.width * d.dimensions.height * 3 ∧
  ∀ f ∈ d.buffer,
    f.dimensions = d.dimensions ∧
    f.data.length = d.dimensions.width * d.dimensions.height * 3

instance (d : VideoDecoder) : Decidable (frame_inv d) := by
  unfold frame_inv; infer_instance

/-! ### Basic lemmas about the embedded operations -/

theorem sws_scale_write_length (dst raw : List UInt8) :
    (sws_scale_write dst raw).length = dst.length := by
  simp only [sws_scale_write, List.length_take, List.length_append]
  omega

theorem recv_all_go_spec (pend : List (List UInt8)) :
    ∀ d : VideoDecoder,
      (recv_all_go pend d).index = d.index + pend.length ∧
      (recv_all_go pend d).buffer.map Frame.index
        = d.buffer.map Frame.index ++ List.range' d.index pend.length ∧
      (recv_all_go pend d).buffer.length = d.buffer.length + pend.length ∧
      (recv_all_go pend d).packets = d.packets ∧
      (recv_all_go pend d).should_loop = d.should_loop ∧
      (recv_all_go pend d).stream_id = d.stream_id ∧
      (recv_all_go pend d).all_packets = d.all_packets ∧
      (recv_all_go pend d).dimensions = d.dimensions ∧
      (recv_all_go pend d).pending = d.pending := by
  induction pend with
  | nil => intro d; simp [recv_all_go]
  | cons raw rest ih =>
    intro d
    simp only [recv_all_go]
    obtain ⟨h1, h2, h3, h4, h5, h6, h7, h8, h9⟩ := ih
      { d with
        texture_data := sws_scale_write d.texture_data raw
        buffer := d.buffer ++ [⟨d.index, sws_scale_write d.texture_data raw, d.dimensions⟩]
        index := d.index + 1 }
    simp only at h1 h2 h3 h4 h5 h6 h7 h8 h9
    refine ⟨?_, ?_, ?_, h4, h5, h6, h7, h8, h9⟩
    · rw [h1]; simp only [List.length_cons]; omega
    · rw [h2]
      simp only [List.length_cons, List.map_append, List.map_cons, List.map_nil]
      rw [List.range'_succ d.index rest.length 1]
      simp [List.append_assoc]
    · rw [h3]; simp only [List.length_append, List.length_cons, List.length_nil]; omega

theorem recv_all_go_frame_inv (pend : List (List UInt8)) :
    ∀ d : VideoDecoder, frame_inv d → frame_inv (recv_all_go pend d) := by
  induction pend with
  | nil => intro d h; simpa [recv_all_go] using h
  | cons raw rest ih =>
    intro d h
    simp only [recv_all_go]
    apply ih
    obtain ⟨ht, hb⟩ := h
    refine ⟨?_, ?_⟩
    · simpa [sws_scale_write_length] using ht
    · intro f hf
      simp only at hf
      rcases List.mem_append.mp hf with hf | hf
      · simpa using hb f hf
      · simp only [List.mem_singleton] at hf
        subst hf
        exact ⟨rfl, by simpa [sws_scale_write_length] using ht⟩

theorem skip_fwd_zero (d : VideoDecoder) : skip_fwd 0 d = some d := by
  unfold skip_fwd
  rw [if_neg ?_]
  · simp only [skip_go]
  · rintro ⟨hne, hle⟩
    exact hne (List.length_eq_zero.mp (Nat.le_zero.mp hle))

theorem nff_terminal (fuel : Nat) (d : VideoDecoder) (hb : d.buffer = [])
    (hp : d.packets = []) (hl : d.should_loop = false) (hf : 0 < fuel) :
    next_frame_fuel fuel d = some (.ok (none, d)) := by
  obtain ⟨f, rfl⟩ : ∃ f, fuel = f + 1 := ⟨fuel - 1, by omega⟩
  simp [next_frame_fuel, hb, hp, hl]

/-- Behaviour of `next_frame_fuel` on a non-looping decoder with enough fuel:
it terminates, a produced frame carries the next pending index and advances
it by one (preserving buffer well-formedness), and an `Ok(None)` result can
only happen with the buffer and the packet stream both exhausted. -/
theorem nff_noloop_spec (fuel : Nat) :
    ∀ d : VideoDecoder, d.should_loop = false → d.packets.length < fuel →
      next_frame_fuel fuel d ≠ none ∧
      (∀ f d2, next_frame_fuel fuel d = some (.ok (some f, d2)) →
        d2.should_loop = false ∧
        (wf d → wf d2 ∧ f.index = nextIdx d ∧ nextIdx d2 = nextIdx d + 1)) ∧
      (∀ d2, next_frame_fuel fuel d = some (.ok (none, d2)) →
        d2.buffer = [] ∧ d2.packets = [] ∧ d2.should_loop = false) := by
  induction fuel with
  | zero => intro d _ h; omega
  | succ fuel ih =>
    intro d hl hlen
    rcases hb : d.buffer with _ | ⟨f0, brest⟩
    · rcases hp : d.packets with _ | ⟨p, prest⟩
      · have hres : next_frame_fuel (fuel + 1) d = some (.ok (none, d)) := by
          simp [next_frame_fuel, hb, hp, hl]
        refine ⟨by simp [hres], ?_, ?_⟩
        · intro f d2 h; rw [hres] at h; simp at h
        · intro d2 h
          rw [hres] at h
          simp only [Option.some.injEq, Except.ok.injEq, Prod.mk.injEq, true_and] at h
          subst h
          exact ⟨hb, hp, hl⟩
      · have hplen : prest.length < fuel := by
          rw [hp] at hlen; simp only [List.length_cons] at hlen; omega
        by_cases hs : p.stream_index = d.stream_id
        · by_cases hok : p.send_ok = true
          · have hres : next_frame_fuel (fuel + 1) d
                = next_frame_fuel fuel
                    (recv_all { d with packets := prest, pending := d.pending ++ p.frames }) := by
              simp [next_frame_fuel, hb, hp, hs, hok]
            have hspec := recv_all_go_spec (d.pending ++ p.frames)
              { d with packets := prest, pending := [] }
            have hall3 : recv_all { d with packets := prest, pending := d.pending ++ p.frames }
                = recv_all_go (d.pending ++ p.frames) { d with packets := prest, pending := [] } := by
              simp only [recv_all]
            simp only at hspec
            obtain ⟨hidx, hmap, hblen, hpk, hsl, hsid, hap, hdim, hpd⟩ := hspec
            obtain ⟨ih1, ih2, ih3⟩ := ih
              (recv_all { d with packets := prest, pending := d.pending ++ p.frames })
              (by rw [hall3, hsl]; exact hl) (by rw [hall3, hpk]; exact hplen)
            refine ⟨by rw [hres]; exact ih1, ?_, ?_⟩
            · intro f d2 h
              rw [hres] at h
              obtain ⟨hl2, himp⟩ := ih2 f d2 h
              refine ⟨hl2, fun hwf => ?_⟩
              have hpos : 0 < d.index := by
                have := hwf.2; omega
              have hwf3 : wf (recv_all { d with packets := prest, pending := d.pending ++ p.frames }) := by
                constructor
                · rw [hall3, hmap, hblen, hidx, hb]
                  simp only [List.map_nil, List.nil_append, List.length_nil, Nat.zero_add]
                  congr 1
                  omega
                · rw [hall3, hblen, hidx, hb]
                  simp only [List.length_nil, Nat.zero_add]
                  omega
              have hni3 : nextIdx (recv_all { d with packets := prest, pending := d.pending ++ p.frames })
                  = nextIdx d := by
                unfold nextIdx
                rw [hall3, hblen, hidx, hb]
                simp only [List.length_nil, Nat.zero_add]
                omega
              obtain ⟨hwf2, hfi, hni⟩ := himp hwf3
              exact ⟨hwf2, by rw [hfi, hni3], by rw [hni, hni3]⟩
            · intro d2 h
              rw [hres] at h
              exact ih3 d2 h
          · have hres : next_frame_fuel (fuel + 1) d
                = some (.error .UnableToSendPacketToDecoder) := by
              simp [next_frame_fuel, hb, hp, hs, hok]
            refine ⟨by simp [hres], ?_, ?_⟩
            · intro f d2 h; rw [hres] at h; simp at h
            · intro d2 h; rw [hres] at h; simp at h
        · have hres : next_frame_fuel (fuel + 1) d
              = next_frame_fuel fuel { d with packets := prest } := by
            simp [next_frame_fuel, hb, hp, hs]
          obtain ⟨ih1, ih2, ih3⟩ := ih { d with packets := prest } (by simpa using hl)
            (by simpa using hplen)
          refine ⟨by rw [hres]; exact ih1, ?_, ?_⟩
          · intro f d2 h
            rw [hres] at h
            obtain ⟨hl2, himp⟩ := ih2 f d2 h
            refine ⟨hl2, fun hwf => ?_⟩
            have hwf' : wf { d with packets := prest } := by
              obtain ⟨h1, h2⟩ := hwf
              exact ⟨by simpa using h1, by simpa using h2⟩
            have hni' : nextIdx { d with packets := prest } = nextIdx d := rfl
            obtain ⟨hwf2, hfi, hni⟩ := himp hwf'
            exact ⟨hwf2, by rw [hfi, hni'], by rw [hni, hni']⟩
          · intro d2 h
            rw [hres] at h
            exact ih3 d2 h
    · have hres : next_frame_fuel (fuel + 1) d
          = some (.ok (some f0, { d with buffer := brest })) := by
        simp [next_frame_fuel, hb]
      refine ⟨by simp [hres], ?_, ?_⟩
      · intro f d2 h
        rw [hres] at h
        simp only [Option.some.injEq, Except.ok.injEq, Prod.mk.injEq] at h
        obtain ⟨hf, hd2⟩ := h
        subst hf
        subst hd2
        refine ⟨by simpa using hl, fun hwf => ?_⟩
        obtain ⟨hmap, hlt⟩ := hwf
        rw [hb] at hmap hlt
        simp only [List.length_cons] at hmap hlt
        rw [List.range'_succ] at hmap
        simp only [List.map_cons, List.cons.injEq] at hmap
        obtain ⟨hf0, hrest⟩ := hmap
        refine ⟨⟨?_, ?_⟩, ?_, ?_⟩
        · simp only
          rw [hrest]
          congr 1
          omega
        · simp only
          omega
        · unfold nextIdx
          rw [hb]
          simp only [List.length_cons]
          exact hf0
        · unfold nextIdx
          rw [hb]
          simp only [List.length_cons]
          omega
      · intro d2 h
        rw [hres] at h
        simp at h

/-- The forward-discard loop advances `index` by exactly the requested count
when the stream still holds that many frames of the selected stream and
every packet of that stream is accepted by the codec (started, as the real
call sites do, with an empty codec queue). -/
theorem skip_go_index (sid : Int) :
    ∀ (ps : List Packet) (frames i : Nat),
      (∀ p ∈ ps, p.stream_index = sid → p.send_ok = true) →
      frames ≤ totalFrames sid ps →
      (skip_go sid frames ps i []).index = i + frames := by
  intro ps
  induction ps with
  | nil =>
    intro frames i _ htot
    simp only [totalFrames] at htot
    obtain rfl : frames = 0 := by omega
    simp [skip_go]
  | cons p rest ih =>
    intro frames i hall htot
    rcases frames with _ | fr
    · simp [skip_go]
    · by_cases hs : p.stream_index = sid
      · have hok : p.send_ok = true := hall p (by simp) hs
        simp only [skip_go, hs, hok, if_true, List.nil_append]
        rcases le_or_lt (fr + 1) p.frames.length with hge | hlt
        · have hk : min p.frames.length (fr + 1) = fr + 1 := by omega
          rw [hk]
          simp [skip_go]
        · have hk : min p.frames.length (fr + 1) = p.frames.length := by omega
          rw [hk, List.drop_length]
          have htot' : fr + 1 - p.frames.length ≤ totalFrames sid rest := by
            simp only [totalFrames, hs, if_pos] at htot
            omega
          rw [ih (fr + 1 - p.frames.length) (i + p.frames.length)
            (fun q hq => hall q (by simp [hq])) htot']
          omega
      · simp only [skip_go, hs, if_false]
        have htot' : fr + 1 ≤ totalFrames sid rest := by
          simp only [totalFrames, hs, if_neg, if_false] at htot
          omega
        exact ih (fr + 1) i (fun q hq => hall q (by simp [hq])) htot'

/-- On an empty frame buffer, with every remaining packet of the selected
stream accepted by the codec and at least one frame still ahead,
`next_frame_fuel` produces a frame tagged with the current `index`. -/
theorem nff_produces :
    ∀ (fuel : Nat) (d : VideoDecoder),
      d.buffer = [] →
      (∀ p ∈ d.packets, p.stream_index = d.stream_id → p.send_ok = true) →
      1 ≤ totalFrames d.stream_id d.packets →
      d.packets.length < fuel →
      ∃ f d2, next_frame_fuel fuel d = some (.ok (some f, d2)) ∧ f.index = d.index := by
  intro fuel
  induction fuel with
  | zero => intro d _ _ _ h; omega
  | succ fuel ih =>
    intro d hb hall htot hlen
    rcases hp : d.packets with _ | ⟨p, prest⟩
    · rw [hp] at htot; simp [totalFrames] at htot
    · have hplen : prest.length < fuel := by
        rw [hp] at hlen; simp only [List.length_cons] at hlen; omega
      rw [hp] at hall htot
      by_cases hs : p.stream_index = d.stream_id
      · have hok : p.send_ok = true := hall p (by simp) hs
        have hres : next_frame_fuel (fuel + 1) d
            = next_frame_fuel fuel
                (recv_all { d with packets := prest, pending := d.pending ++ p.frames }) := by
          simp [next_frame_fuel, hb, hp, hs, hok]
        have hall3 : recv_all { d with packets := prest, pending := d.pending ++ p.frames }
            = recv_all_go (d.pending ++ p.frames) { d with packets := prest, pending := [] } := by
          simp only [recv_all]
        obtain ⟨hidx, hmap, hblen, hpk, hsl, hsid, hap, hdim, hpd⟩ :=
          recv_all_go_spec (d.pending ++ p.frames) { d with packets := prest, pending := [] }
        simp only at hidx hmap hblen hpk hsid
        rcases hb3 : (recv_all { d with packets := prest, pending := d.pending ++ p.frames }).buffer
          with _ | ⟨g, grest⟩
        · -- the packet contributed no frame and the codec queue was empty
          have hL : (d.pending ++ p.frames).length = 0 := by
            have h0 : (recv_all_go (d.pending ++ p.frames)
                { d with packets := prest, pending := [] }).buffer.length = 0 := by
              rw [← hall3, hb3]; rfl
            rw [hblen, hb] at h0
            simpa using h0
          have htot' : 1 ≤ totalFrames d.stream_id prest := by
            simp only [List.length_append] at hL
            have hpf : p.frames.length = 0 := by omega
            simp only [totalFrames, hs, if_pos, hpf] at htot ⊢
            omega
          obtain ⟨f, d2, heq, hfi⟩ := ih
            (recv_all { d with packets := prest, pending := d.pending ++ p.frames })
            hb3
            (by rw [hall3, hpk, hsid] ; exact fun q hq hq2 => hall q (by simp [hq]) hq2)
            (by rw [hall3, hpk, hsid]; exact htot')
            (by rw [hall3, hpk]; exact hplen)
          refine ⟨f, d2, by rw [hres]; exact heq, ?_⟩
          rw [hfi, hall3, hidx, hL]
          omega
        · -- at least one frame was queued: it is returned with index `d.index`
          obtain ⟨f2, rfl⟩ : ∃ f2, fuel = f2 + 1 := ⟨fuel - 1, by omega⟩
          have hgi : g.index = d.index := by
            have hm := hmap
            rw [← hall3] at hm
            rw [hb3, hb] at hm
            have hL : (d.pending ++ p.frames).length = grest.length + 1 := by
              have h0 := hblen
              rw [← hall3] at h0
              rw [hb3, hb] at h0
              simpa using h0.symm
            rw [hL, List.range'_succ] at hm
            simp only [List.map_cons, List.map_nil, List.nil_append, List.cons.injEq] at hm
            exact hm.1
          refine ⟨g, { (recv_all { d with packets := prest, pending := d.pending ++ p.frames })
            with buffer := grest }, ?_, hgi⟩
          rw [hres]
          simp [next_frame_fuel, hb3]
      · have hres : next_frame_fuel (fuel + 1) d
            = next_frame_fuel fuel { d with packets := prest } := by
          simp [next_frame_fuel, hb, hp, hs]
        have htot' : 1 ≤ totalFrames d.stream_id prest := by
          simp only [totalFrames, hs, if_neg, if_false] at htot
          omega
        obtain ⟨f, d2, heq, hfi⟩ := ih { d with packets := prest }
          (by simpa using hb)
          (by exact fun q hq hq2 => hall q (by simp [hq]) hq2)
          (by simpa using htot')
          (by simpa using hplen)
        exact ⟨f, d2, by rw [hres]; exact heq, hfi⟩

/-- When the frame buffer is non-empty and no longer than the requested
count, the drain branch of a forward skip always panics: `limit` is the
buffer length and `drain(..=limit)` runs off the end of the deque. -/
theorem skip_fwd_drain_none (k : Nat) (d : VideoDecoder)
    (hne : d.buffer ≠ []) (hle : d.buffer.length ≤ k) :
    skip_fwd k d = none := by
  unfold skip_fwd
  rw [if_pos ⟨hne, hle⟩]
  simp only [hle, if_true, drainToInclusive]
  rw [if_neg (by omega)]

/-- A forward skip that returns (does not panic) took the no-drain path and
only replaced the packet position, the frame counter, and the codec queue. -/
theorem skip_fwd_some (k : Nat) (d d2 : VideoDecoder) (h : skip_fwd k d = some d2) :
    d2 = { d with
      packets := (skip_go d.stream_id k d.packets d.index d.pending).packets,
      index := (skip_go d.stream_id k d.packets d.index d.pending).index,
      pending := (skip_go d.stream_id k d.packets d.index d.pending).pending } := by
  by_cases hc : d.buffer ≠ [] ∧ d.buffer.length ≤ k
  · rw [skip_fwd_drain_none k d hc.1 hc.2] at h
    exact absurd h (by simp)
  · unfold skip_fwd at h
    rw [if_neg hc] at h
    simp only [Option.some.injEq] at h
    exact h.symm

theorem skip_pos_empty_buffer (k : Nat) (d : VideoDecoder) (hb : d.buffer = [])
    (hk : 0 < k) :
    skip (k : Int) d = some { d with
      packets := (skip_go d.stream_id k d.packets d.index d.pending).packets,
      index := (skip_go d.stream_id k d.packets d.index d.pending).index,
      pending := (skip_go d.stream_id k d.packets d.index d.pending).pending } := by
  unfold skip
  rw [if_pos (by exact_mod_cast hk), Int.toNat_natCast]
  unfold skip_fwd
  rw [if_neg (by simp [hb])]

theorem skip_fwd_frame_inv (k : Nat) (d d2 : VideoDecoder) (h : skip_fwd k d = some d2)
    (hinv : frame_inv d) : frame_inv d2 ∧ d2.dimensions = d.dimensions := by
  obtain rfl := skip_fwd_some k d d2 h
  exact ⟨⟨hinv.1, fun f hf => hinv.2 f hf⟩, rfl⟩

theorem loop_ctx_frame_inv (d : VideoDecoder) (hinv : frame_inv d) :
    frame_inv d.loop_ctx := ⟨hinv.1, fun f hf => hinv.2 f hf⟩

/-- A `skip` call that returns preserves the frame-layout invariant and the
decoder's dimensions (it never converts, never touches the texture buffer,
and on the non-panicking paths never touches the frame buffer). -/
theorem skip_frame_inv (n : Int) (d d2 : VideoDecoder) (h : skip n d = some d2)
    (hinv : frame_inv d) : frame_inv d2 ∧ d2.dimensions = d.dimensions := by
  unfold skip at h
  by_cases h1 : 0 < n
  · rw [if_pos h1] at h
    exact skip_fwd_frame_inv _ _ _ h hinv
  · rw [if_neg h1] at h
    by_cases h2 : n < 0
    · rw [if_pos h2] at h
      by_cases h3 : isizeMaxN < d.index - 2 - n.natAbs
      · rw [if_pos h3] at h
        obtain ⟨dmid, hmid, h4⟩ := Option.bind_eq_some.mp h
        obtain ⟨hA1, hA2⟩ := skip_fwd_frame_inv _ _ _ hmid (loop_ctx_frame_inv d hinv)
        obtain ⟨hB1, hB2⟩ := skip_fwd_frame_inv _ _ _ h4 hA1
        exact ⟨hB1, by rw [hB2, hA2]; rfl⟩
      · rw [if_neg h3] at h
        obtain ⟨hA1, hA2⟩ := skip_fwd_frame_inv _ _ _ h (loop_ctx_frame_inv d hinv)
        exact ⟨hA1, by rw [hA2]; rfl⟩
    · rw [if_neg h2] at h
      simp only [Option.some.injEq] at h
      subst h
      exact ⟨hinv, rfl⟩

/-- Every frame produced by `next_frame_fuel` carries the decoder's
dimensions and a tightly packed data buffer, and the invariant survives
(also across loop resets, for looping decoders). -/
theorem nff_frame_inv :
    ∀ (fuel : Nat) (d : VideoDecoder) (f : Frame) (d2 : VideoDecoder),
      frame_inv d →
      next_frame_fuel fuel d = some (.ok (some f, d2)) →
      f.dimensions = d.dimensions ∧
      f.data.length = d.dimensions.width * d.dimensions.height * 3 ∧
      frame_inv d2 ∧ d2.dimensions = d.dimensions := by
  intro fuel
  induction fuel with
  | zero => intro d f d2 _ h; exact absurd h (by simp [next_frame_fuel])
  | succ fuel ih =>
    intro d f d2 hinv h
    rcases hb : d.buffer with _ | ⟨f0, brest⟩
    · rcases hp : d.packets with _ | ⟨p, prest⟩
      · by_cases hl : d.should_loop = true
        · have hres : next_frame_fuel (fuel + 1) d = next_frame_fuel fuel d.loop_ctx := by
            simp [next_frame_fuel, hb, hp, hl]
          rw [hres] at h
          exact ih d.loop_ctx f d2 (loop_ctx_frame_inv d hinv) h
        · have hres : next_frame_fuel (fuel + 1) d = some (.ok (none, d)) := by
            simp only [Bool.not_eq_true] at hl
            simp [next_frame_fuel, hb, hp, hl]
          rw [hres] at h
          exact absurd h (by simp)
      · by_cases hs : p.stream_index = d.stream_id
        · by_cases hok : p.send_ok = true
          · have hres : next_frame_fuel (fuel + 1) d
                = next_frame_fuel fuel
                    (recv_all { d with packets := prest, pending := d.pending ++ p.frames }) := by
              simp [next_frame_fuel, hb, hp, hs, hok]
            rw [hres] at h
            have hinv3 : frame_inv
                (recv_all { d with packets := prest, pending := d.pending ++ p.frames }) := by
              simp only [recv_all]
              exact recv_all_go_frame_inv _ _ ⟨hinv.1, fun g hg => hinv.2 g hg⟩
            have hdim3 :
                (recv_all { d with packets := prest, pending := d.pending ++ p.frames }).dimensions
                  = d.dimensions := by
              simp only [recv_all]
              exact (recv_all_go_spec _ _).2.2.2.2.2.2.2.1
            obtain ⟨k1, k2, k3, k4⟩ := ih _ f d2 hinv3 h
            rw [hdim3] at k1 k2 k4
            exact ⟨k1, k2, k3, k4⟩
          · have hres : next_frame_fuel (fuel + 1) d
                = some (.error .UnableToSendPacketToDecoder) := by
              simp [next_frame_fuel, hb, hp, hs, hok]
            rw [hres] at h
            exact absurd h (by simp)
        · have hres : next_frame_fuel (fuel + 1) d
              = next_frame_fuel fuel { d with packets := prest } := by
            simp [next_frame_fuel, hb, hp, hs]
          rw [hres] at h
          exact ih { d with packets := prest } f d2 ⟨hinv.1, fun g hg => hinv.2 g hg⟩ h
    · have hres : next_frame_fuel (fuel + 1) d
          = some (.ok (some f0, { d with buffer := brest })) := by
        simp [next_frame_fuel, hb]
      rw [hres] at h
      simp only [Option.some.injEq, Except.ok.injEq, Prod.mk.injEq] at h
      obtain ⟨hf, hd2⟩ := h
      have hf0 := hinv.2 f0 (by rw [hb]; exact List.mem_cons_self _ _)
      subst hf
      subst hd2
      exact ⟨hf0.1, hf0.2, ⟨hinv.1, fun g hg => hinv.2 g (by rw [hb]; exact List.mem_cons_of_mem _ hg)⟩, rfl⟩

/-- When the first packet of the selected stream among the remaining packets
is rejected by `avcodec_send_packet` (and the frame buffer is empty),
`next_frame_fuel` surfaces the hard decode error. -/
theorem nff_send_fail :
    ∀ (pre : List Packet) (fuel : Nat) (d : VideoDecoder) (p : Packet) (rest : List Packet),
      d.buffer = [] → d.packets = pre ++ p :: rest →
      (∀ q ∈ pre, q.stream_index ≠ d.stream_id) →
      p.stream_index = d.stream_id → p.send_ok = false →
      pre.length < fuel →
      next_frame_fuel fuel d = some (.error .UnableToSendPacketToDecoder) := by
  intro pre
  induction pre with
  | nil =>
    intro fuel d p rest hb hp _ hs hsend hlen
    obtain ⟨f2, rfl⟩ : ∃ f2, fuel = f2 + 1 := ⟨fuel - 1, by omega⟩
    simp only [List.nil_append] at hp
    simp [next_frame_fuel, hb, hp, hs, hsend]
  | cons q pre ih =>
    intro fuel d p rest hb hp hpre hs hsend hlen
    obtain ⟨f2, rfl⟩ : ∃ f2, fuel = f2 + 1 := ⟨fuel - 1, by omega⟩
    simp only [List.cons_append] at hp
    have hq : q.stream_index ≠ d.stream_id := hpre q (by simp)
    rw [show next_frame_fuel (f2 + 1) d
        = next_frame_fuel f2 { d with packets := pre ++ p :: rest } by
      simp [next_frame_fuel, hb, hp, hq]]
    refine ih f2 { d with packets := pre ++ p :: rest } p rest hb (by simp) ?_ hs hsend ?_
    · exact fun r hr => hpre r (by simp [hr])
    · simp only [List.length_cons] at hlen
      omega

theorem skip_neg_small (n : Int) (d : VideoDecoder) (hn : n < 0)
    (hofs : d.index - 2 - n.natAbs ≤ isizeMaxN) :
    skip n d = skip_fwd (d.index - 2 - n.natAbs) d.loop_ctx := by
  unfold skip
  rw [if_neg (by omega), if_pos hn, if_neg (by omega)]

/-! ### Concrete fixtures -/

/-- A video-stream packet (stream 0) that decodes to exactly one raw frame. -/
def videoPacket : Packet := ⟨0, true, [[]]⟩

/-- A packet of a non-selected stream. -/
def audioPacket : Packet := ⟨1, true, [[]]⟩

/-- A video-stream packet rejected by `avcodec_send_packet`. -/
def failPacket : Packet := ⟨0, false, []⟩

def frameOne : Frame := ⟨1, [], ⟨1, 1⟩⟩

def frameTwo : Frame := ⟨2, [], ⟨1, 1⟩⟩

/-- A decoder holding exactly one already-decoded frame in its buffer. -/
def bufferedDecoder : VideoDecoder :=
  { VideoDecoder.new 1 1 0 [] false with buffer := [frameOne], index := 2 }

/-- A decoder holding two already-decoded frames in its buffer, with one
more packet ahead. -/
def bufferedDecoder2 : VideoDecoder :=
  { VideoDecoder.new 1 1 0 [videoPacket] false with buffer := [frameOne, frameTwo], index := 3 }

/-! ### Claim theorems -/

/-- C1: the claim says `skip(n)` with `n > 0` first removes
`min(n, buffer length)` frames from the front of the frame buffer and then
decodes-and-discards only the remainder.  The code does neither: with one
buffered frame, `skip(1)` enters the drain branch and panics
(`drain(..=1)` on a one-element deque — embedded as `none`), and with two
buffered frames `skip(1)` leaves the buffer fully intact (both frames still
there) while discarding a freshly decoded frame instead. -/
theorem C1_skip_drain_panics :
    bufferedDecoder.buffer.length = 1 ∧
    skip 1 bufferedDecoder = none ∧
    bufferedDecoder2.buffer.length = 2 ∧
    (skip 1 bufferedDecoder2).map VideoDecoder.buffer = some [frameOne, frameTwo] := by
  refine ⟨rfl, ?_, rfl, by decide⟩
  unfold skip
  rw [if_pos (by decide)]
  exact skip_fwd_drain_none 1 bufferedDecoder (by decide) (by decide)

/-- C6: for `n < 0`, `skip` computes the offset
`max(next_index - 2 - |n|, 0)` (`saturating_sub` twice, never negative),
performs a loop reset, and forward-skips by exactly that offset — split into
two sequential forward skips whose distances sum to the offset when it
exceeds `isize::MAX`. -/
theorem C6_backward_skip_offset (n : Int) (d : VideoDecoder) (hn : n < 0) (ofs : Nat)
    (hofs : ofs = d.index - 2 - n.natAbs) :
    ((ofs : Int) = max ((d.index : Int) - 2 - (n.natAbs : Int)) 0) ∧
    (ofs ≤ isizeMaxN → skip n d = skip_fwd ofs d.loop_ctx) ∧
    (isizeMaxN < ofs →
      skip n d
        = (skip_fwd isizeMaxN d.loop_ctx).bind (fun d3 => skip_fwd (ofs - isizeMaxN) d3) ∧
      isizeMaxN + (ofs - isizeMaxN) = ofs) := by
  subst hofs
  refine ⟨by omega, fun hle => skip_neg_small n d hn hle, fun hlt => ⟨?_, by omega⟩⟩
  unfold skip
  rw [if_neg (by omega), if_pos hn, if_pos hlt]

/-- A concrete backward skip: decoder at `next_index = 5`, `skip(-1)`,
offset `5 - 2 - 1 = 2`. -/
def witnessDecoder : VideoDecoder :=
  { VideoDecoder.new 2 2 0 [] false with index := 5 }

theorem C6_backward_skip_offset_w :
    ((-1 : Int) < 0 ∧ (2 : Nat) = witnessDecoder.index - 2 - (-1 : Int).natAbs) ∧
    (((2 : Nat) : Int) = max ((witnessDecoder.index : Int) - 2 - (((-1 : Int).natAbs : Nat) : Int)) 0) ∧
    ((2 : Nat) ≤ isizeMaxN → skip (-1) witnessDecoder = skip_fwd 2 witnessDecoder.loop_ctx) ∧
    (isizeMaxN < 2 →
      skip (-1) witnessDecoder
        = (skip_fwd isizeMaxN witnessDecoder.loop_ctx).bind
            (fun d3 => skip_fwd (2 - isizeMaxN) d3) ∧
      isizeMaxN + (2 - isizeMaxN) = 2) :=
  ⟨⟨by decide, by decide⟩,
   C6_backward_skip_offset (-1) witnessDecoder (by decide) 2 (by decide)⟩

/-- C7: one `read_stream` invocation writes exactly
`min(N, length - offset)` bytes (taken from `data` at the cursor, staying in
bounds), returns that count (`0` once the cursor reached the data length),
and advances the cursor by exactly that count, preserving
`offset ≤ length`. -/
theorem C7_read_stream_bounds (s : Stream) (N : Nat)
    (hdata : s.data.length = s.length) (hoff : s.offset ≤ s.length) :
    (read_stream s N).written.length = min N (s.length - s.offset) ∧
    (read_stream s N).ret = (read_stream s N).written.length ∧
    (read_stream s N).stream.offset = s.offset + (read_stream s N).written.length ∧
    (read_stream s N).stream.offset ≤ s.length ∧
    (read_stream s N).stream.length = s.length ∧
    (read_stream s N).stream.data = s.data ∧
    s.offset + (read_stream s N).written.length ≤ s.data.length ∧
    (read_stream s N).written = (s.data.drop s.offset).take (min N (s.length - s.offset)) ∧
    (s.offset = s.length → (read_stream s N).ret = 0) := by
  unfold read_stream
  simp only [List.length_take, List.length_drop]
  refine ⟨by omega, by omega, by omega, by omega, trivial, trivial, by omega, trivial,
    fun hend => by omega⟩

def witnessStream : Stream := ⟨3, 1, [7, 8, 9]⟩

theorem C7_read_stream_bounds_w :
    (witnessStream.data.length = witnessStream.length ∧
     witnessStream.offset ≤ witnessStream.length) ∧
    ((read_stream witnessStream 5).written.length
        = min 5 (witnessStream.length - witnessStream.offset) ∧
     (read_stream witnessStream 5).ret = (read_stream witnessStream 5).written.length ∧
     (read_stream witnessStream 5).stream.offset
        = witnessStream.offset + (read_stream witnessStream 5).written.length ∧
     (read_stream witnessStream 5).stream.offset ≤ witnessStream.length ∧
     (read_stream witnessStream 5).stream.length = witnessStream.length ∧
     (read_stream witnessStream 5).stream.data = witnessStream.data ∧
     witnessStream.offset + (read_stream witnessStream 5).written.length
        ≤ witnessStream.data.length ∧
     (read_stream witnessStream 5).written
        = (witnessStream.data.drop witnessStream.offset).take
            (min 5 (witnessStream.length - witnessStream.offset)) ∧
     (witnessStream.offset = witnessStream.length → (read_stream witnessStream 5).ret = 0)) :=
  ⟨⟨by decide, by decide⟩, C7_read_stream_bounds witnessStream 5 (by decide) (by decide)⟩

/-- C8: during `next_frame`, when the first reachable packet of the selected
video stream (everything before it belonging to other streams) is rejected
by `avcodec_send_packet`, the call returns
`Err(DecodeError::UnableToSendPacketToDecoder)` — surfaced, not retried, and
no panic. -/
theorem C8_send_packet_error (d : VideoDecoder) (pre : List Packet) (p : Packet)
    (rest : List Packet) (hb : d.buffer = []) (hp : d.packets = pre ++ p :: rest)
    (hpre : ∀ q ∈ pre, q.stream_index ≠ d.stream_id)
    (hs : p.stream_index = d.stream_id) (hsend : p.send_ok = false) :
    next_frame d = some (.error DecodeError.UnableToSendPacketToDecoder) := by
  unfold next_frame
  apply nff_send_fail pre _ d p rest hb hp hpre hs hsend
  rw [hp]
  simp only [List.length_append, List.length_cons]
  omega

def failDecoder : VideoDecoder := VideoDecoder.new 1 1 0 [audioPacket, failPacket] false

theorem C8_send_packet_error_w :
    (failDecoder.buffer = [] ∧
     failDecoder.packets = [audioPacket] ++ failPacket :: [] ∧
     (∀ q ∈ [audioPacket], q.stream_index ≠ failDecoder.stream_id) ∧
     failPacket.stream_index = failDecoder.stream_id ∧
     failPacket.send_ok = false) ∧
    next_frame failDecoder = some (.error DecodeError.UnableToSendPacketToDecoder) :=
  ⟨⟨rfl, rfl, by decide, rfl, rfl⟩,
   C8_send_packet_error failDecoder [audioPacket] failPacket [] rfl rfl (by decide) rfl rfl⟩

/-- C9: the four `From` conversions that `src/src/source.rs` declares map
byte inputs to the `Raw` variant holding the same bytes and path inputs to
the `Filesystem` variant holding the same path.  (There is no fifth
conversion: strings are not accepted, which is the divergence recorded for
this claim.) -/
theorem C9_source_conversions :
    (∀ data : List UInt8, intoVideoSource (.bytesRef data) = .Raw (.Borrowed data)) ∧
    (∀ data : List UInt8, intoVideoSource (.bytesVec data) = .Raw (.Owned data)) ∧
    (∀ path : String, intoVideoSource (.pathRef path) = .Filesystem (.Borrowed path)) ∧
    (∀ path : String, intoVideoSource (.pathBuf path) = .Filesystem (.Owned path)) :=
  ⟨fun _ => rfl, fun _ => rfl, fun _ => rfl, fun _ => rfl⟩

/-- C10: in the forward-skip packet loop, a packet whose `stream_index`
differs from the selected stream is dropped without touching the remaining
count, `index`, or the codec queue — the whole `skip` call behaves as if
that packet were not there. -/
theorem C10_foreign_packet_skipped (sid : Int) (frames : Nat) (p : Packet)
    (ps : List Packet) (i : Nat) (pd : List (List UInt8))
    (hf : 0 < frames) (hp : p.stream_index ≠ sid) :
    skip_go sid frames (p :: ps) i pd = skip_go sid frames ps i pd ∧
    (∀ d : VideoDecoder, d.stream_id = sid → d.buffer = [] → d.packets = p :: ps →
      skip (frames : Int) d = skip (frames : Int) { d with packets := ps }) := by
  obtain ⟨fr, rfl⟩ : ∃ fr, frames = fr + 1 := ⟨frames - 1, by omega⟩
  have h1 : skip_go sid (fr + 1) (p :: ps) i pd = skip_go sid (fr + 1) ps i pd := by
    simp only [skip_go, hp, if_false]
  refine ⟨h1, fun d hsid hb hpk => ?_⟩
  subst hsid
  rw [skip_pos_empty_buffer (fr + 1) d hb (by omega)]
  rw [skip_pos_empty_buffer (fr + 1) { d with packets := ps } hb (by omega)]
  have h2 : skip_go d.stream_id (fr + 1) (p :: ps) d.index d.pending
      = skip_go d.stream_id (fr + 1) ps d.index d.pending := by
    simp only [skip_go, hp, if_false]
  rw [hpk, h2]

theorem C10_foreign_packet_skipped_w :
    (0 < 1 ∧ audioPacket.stream_index ≠ (0 : Int)) ∧
    (skip_go 0 1 (audioPacket :: []) 1 [] = skip_go 0 1 [] 1 [] ∧
     (∀ d : VideoDecoder, d.stream_id = 0 → d.buffer = [] → d.packets = audioPacket :: [] →
       skip ((1 : Nat) : Int) d = skip ((1 : Nat) : Int) { d with packets := [] })) :=
  ⟨⟨by decide, by decide⟩,
   C10_foreign_packet_skipped 0 1 audioPacket [] 1 [] (by decide) (by decide)⟩

/-- A fresh decoder over a single one-frame video packet. -/
def witnessDecoder5 : VideoDecoder := VideoDecoder.new 1 1 0 [videoPacket] false

/-- C5: for a non-looping decoder (with a well-formed buffer), `next_frame`
terminates; each produced frame carries the next pending index (so indices
are consecutive, starting at 1 on a fresh decoder where `nextIdx = 1`);
after an `Ok(None)` the buffer and input are exhausted and every further
call returns the same `Ok(None)` and never a frame; end-of-input is
`Ok(None)`, not an error. -/
theorem C5_sequence (d : VideoDecoder) (hw : wf d) (hl : d.should_loop = false) :
    next_frame d ≠ none ∧
    (∀ f d2, next_frame d = some (.ok (some f, d2)) →
      wf d2 ∧ d2.should_loop = false ∧ f.index = nextIdx d ∧ nextIdx d2 = f.index + 1) ∧
    (∀ d2, next_frame d = some (.ok (none, d2)) →
      d2.buffer = [] ∧ d2.packets = [] ∧
      next_frame d2 = some (.ok (none, d2)) ∧
      ∀ f d3, next_frame d2 ≠ some (.ok (some f, d3))) ∧
    (∀ w h sid ps b, nextIdx (VideoDecoder.new w h sid ps b) = 1) := by
  obtain ⟨h1, h2, h3⟩ :=
    nff_noloop_spec (d.packets.length + d.all_packets.length + 2) d hl (by omega)
  refine ⟨h1, ?_, ?_, fun w h sid ps b => rfl⟩
  · intro f d2 hres
    obtain ⟨hl2, himp⟩ := h2 f d2 hres
    obtain ⟨hwf2, hfi, hni⟩ := himp hw
    exact ⟨hwf2, hl2, hfi, by rw [hni, hfi]⟩
  · intro d2 hres
    obtain ⟨hb2, hp2, hl2⟩ := h3 d2 hres
    have hterm : next_frame d2 = some (.ok (none, d2)) := by
      unfold next_frame
      exact nff_terminal _ d2 hb2 hp2 hl2 (by omega)
    refine ⟨hb2, hp2, hterm, fun f d3 hcon => ?_⟩
    rw [hterm] at hcon
    simp at hcon

theorem C5_sequence_w :
    (wf witnessDecoder5 ∧ witnessDecoder5.should_loop = false) ∧
    (next_frame witnessDecoder5 ≠ none ∧
     (∀ f d2, next_frame witnessDecoder5 = some (.ok (some f, d2)) →
       wf d2 ∧ d2.should_loop = false ∧ f.index = nextIdx witnessDecoder5 ∧
       nextIdx d2 = f.index + 1) ∧
     (∀ d2, next_frame witnessDecoder5 = some (.ok (none, d2)) →
       d2.buffer = [] ∧ d2.packets = [] ∧
       next_frame d2 = some (.ok (none, d2)) ∧
       ∀ f d3, next_frame d2 ≠ some (.ok (some f, d3))) ∧
     (∀ w h sid ps b, nextIdx (VideoDecoder.new w h sid ps b) = 1)) :=
  ⟨⟨by decide, rfl⟩, C5_sequence witnessDecoder5 (by decide) rfl⟩

/-- C4: a freshly constructed decoder satisfies the frame-layout invariant
(its texture buffer has exactly `width * height * 3` bytes — the buffer size
is spec-modelled, see `av_image_get_buffer_size_rgb24`) with the requested
dimensions; every frame `next_frame` returns carries the decoder's
dimensions and exactly `width * height * 3` data bytes, and both
`next_frame` and `skip` preserve the invariant and the dimensions. -/
theorem C4_frame_layout :
    (∀ w h sid ps b, frame_inv (VideoDecoder.new w h sid ps b) ∧
      (VideoDecoder.new w h sid ps b).dimensions = ⟨w, h⟩) ∧
    (∀ d f d2, frame_inv d → next_frame d = some (.ok (some f, d2)) →
      f.dimensions = d.dimensions ∧
      f.data.length = d.dimensions.width * d.dimensions.height * 3 ∧
      frame_inv d2 ∧ d2.dimensions = d.dimensions) ∧
    (∀ n d d2, frame_inv d → skip n d = some d2 →
      frame_inv d2 ∧ d2.dimensions = d.dimensions) := by
  refine ⟨?_, ?_, ?_⟩
  · intro w h sid ps b
    refine ⟨⟨?_, ?_⟩, rfl⟩
    · simp [VideoDecoder.new, av_image_get_buffer_size_rgb24]
    · intro f hf
      simp [VideoDecoder.new] at hf
  · intro d f d2 hinv hres
    exact nff_frame_inv (d.packets.length + d.all_packets.length + 2) d f d2 hinv hres
  · intro n d d2 hinv hres
    exact skip_frame_inv n d d2 hres hinv

/-- The frame produced by `next_frame` on `witnessDecoder5` and the decoder
state after it (used by the C4 witness). -/
def producedFrame5 : Frame := ⟨1, [0, 0, 0], ⟨1, 1⟩⟩

def steppedDecoder5 : VideoDecoder :=
  { dimensions := ⟨1, 1⟩, buffer := [], should_loop := false, index := 2, stream_id := 0,
    texture_data := [0, 0, 0], packets := [], all_packets := [videoPacket], pending := [] }

theorem C4_frame_layout_w :
    (frame_inv witnessDecoder5 ∧
     next_frame witnessDecoder5 = some (.ok (some producedFrame5, steppedDecoder5))) ∧
    (producedFrame5.dimensions = witnessDecoder5.dimensions ∧
     producedFrame5.data.length
        = witnessDecoder5.dimensions.width * witnessDecoder5.dimensions.height * 3 ∧
     frame_inv steppedDecoder5 ∧ steppedDecoder5.dimensions = witnessDecoder5.dimensions) :=
  ⟨⟨by decide, rfl⟩,
   C4_frame_layout.2.1 witnessDecoder5 producedFrame5 steppedDecoder5 (by decide) rfl⟩

/-- C2: on a fresh decoder over a stream whose selected-stream packets all
decode cleanly and hold `totalFrames` frames in total, `skip(k)` followed by
`skip(-k)` (for `0 < k < totalFrames`) restores the position so that the
next produced frame has index 1 — exactly what a fresh decoder's first
`next_frame` produces. -/
theorem C2_skip_roundtrip (w h : Nat) (sid : Int) (ps : List Packet) (b : Bool) (k : Nat)
    (hall : ∀ p ∈ ps, p.stream_index = sid → p.send_ok = true)
    (hk : 0 < k) (hkT : k < totalFrames sid ps) :
    ((skip (k : Int) (VideoDecoder.new w h sid ps b)).bind
        (skip (-(k : Int)))).bind nextProducedIndex = some 1 ∧
    nextProducedIndex (VideoDecoder.new w h sid ps b) = some 1 := by
  have hfresh : nextProducedIndex (VideoDecoder.new w h sid ps b) = some 1 := by
    obtain ⟨f, d2, hres, hfi⟩ := nff_produces
      ((VideoDecoder.new w h sid ps b).packets.length
        + (VideoDecoder.new w h sid ps b).all_packets.length + 2)
      (VideoDecoder.new w h sid ps b) rfl hall
      (by show 1 ≤ totalFrames sid ps; omega)
      (by show ps.length < ps.length + ps.length + 2; omega)
    unfold nextProducedIndex next_frame
    rw [hres]
    show some f.index = some 1
    rw [hfi]
    rfl
  refine ⟨?_, hfresh⟩
  obtain ⟨dm, hskip, hdmidx, hdmbuf, hdmall, hdmsid⟩ :
      ∃ dm, skip (k : Int) (VideoDecoder.new w h sid ps b) = some dm ∧
        dm.index = 1 + k ∧ dm.buffer = [] ∧ dm.all_packets = ps ∧ dm.stream_id = sid := by
    refine ⟨_, skip_pos_empty_buffer k (VideoDecoder.new w h sid ps b) rfl hk,
      ?_, rfl, rfl, rfl⟩
    exact skip_go_index sid ps k 1 hall (le_of_lt hkT)
  rw [hskip, Option.some_bind]
  have hofs : dm.index - 2 - (-(k : Int)).natAbs = 0 := by
    rw [hdmidx]
    simp only [Int.natAbs_neg, Int.natAbs_ofNat]
    omega
  have h2 : skip (-(k : Int)) dm = some dm.loop_ctx := by
    rw [skip_neg_small (-(k : Int)) dm (by omega) (by rw [hofs]; exact Nat.zero_le _), hofs]
    exact skip_fwd_zero _
  rw [h2, Option.some_bind]
  obtain ⟨f, d3, hres, hfi⟩ := nff_produces
    (dm.loop_ctx.packets.length + dm.loop_ctx.all_packets.length + 2) dm.loop_ctx
    (show dm.buffer = [] from hdmbuf)
    (by show ∀ p ∈ dm.all_packets, p.stream_index = dm.stream_id → p.send_ok = true
        rw [hdmall, hdmsid]
        exact hall)
    (by show 1 ≤ totalFrames dm.stream_id dm.all_packets
        rw [hdmall, hdmsid]
        omega)
    (by omega)
  unfold nextProducedIndex
  rw [show next_frame dm.loop_ctx = some (.ok (some f, d3)) from hres]
  show some f.index = some 1
  rw [hfi]
  rfl

theorem C2_skip_roundtrip_w :
    ((∀ p ∈ [videoPacket, videoPacket, videoPacket, videoPacket],
        p.stream_index = (0 : Int) → p.send_ok = true) ∧
     0 < 2 ∧
     2 < totalFrames 0 [videoPacket, videoPacket, videoPacket, videoPacket]) ∧
    (((skip ((2 : Nat) : Int)
          (VideoDecoder.new 1 1 0 [videoPacket, videoPacket, videoPacket, videoPacket] false)).bind
        (skip (-((2 : Nat) : Int)))).bind nextProducedIndex = some 1 ∧
     nextProducedIndex
        (VideoDecoder.new 1 1 0 [videoPacket, videoPacket, videoPacket, videoPacket] false)
          = some 1) :=
  ⟨⟨by decide, by decide, by decide⟩,
   C2_skip_roundtrip 1 1 0 [videoPacket, videoPacket, videoPacket, videoPacket] false 2
     (by decide) (by decide) (by decide)⟩

/-- A fresh non-looping decoder over forty one-frame video packets (the
shape of the repository's `frame_skip` test stream). -/
def ps40 : List Packet := List.replicate 40 videoPacket

def freshDecoder40 : VideoDecoder := VideoDecoder.new 1 1 0 ps40 false

/-- C3 counterexample: on a truly fresh decoder, `skip(29)` followed by
`next_frame()` yields the frame at index 30, not 31 (`next_index` starts at
1 and the skip advances it by exactly 29); continuing with `skip(-29)` and
`next_frame()` then yields index 1, not 2.  The indices 31 and 2 of the
claim arise only after one frame has first been consumed, as the
repository's `frame_skip` test does before calling `skip(29)`. -/
theorem C3_fresh_skip29_cex :
    (skip 29 freshDecoder40).bind nextProducedIndex = some 30 ∧
    some (30 : Nat) ≠ some 31 ∧
    (((skip 29 freshDecoder40).bind nextFrameState).bind (skip (-29))).bind nextProducedIndex
      = some 1 ∧
    some (1 : Nat) ≠ some 2 :=
  ⟨rfl, by decide, rfl, by decide⟩

/-- C3 amended: after `next_frame()` has produced frame 1, `skip(29)` then
`next_frame()` yields the frame at index 31 (1 consumed + 29 skipped + 1),
and a subsequent `skip(-29)` then `next_frame()` yields index 2; from a
truly fresh decoder, `skip(29)` then `next_frame()` yields index 30. -/
theorem C3_skip_composition_after_first_frame :
    nextProducedIndex freshDecoder40 = some 1 ∧
    ((nextFrameState freshDecoder40).bind (skip 29)).bind nextProducedIndex = some 31 ∧
    ((((nextFrameState freshDecoder40).bind (skip 29)).bind nextFrameState).bind
        (skip (-29))).bind nextProducedIndex = some 2 ∧
    (skip 29 freshDecoder40).bind nextProducedIndex = some 30 :=
  ⟨rfl, rfl, rfl, rfl⟩

end FfmpegVideoDecoder
